import Mathlib

/-!
Patient registry (`src/App.js`): record store, search filter, selection.

A shallow embedding of the `PatientRegistry` component.  The React state
variables become the fields of `State`; every event handler becomes a pure
function `State → State`; the two clock reads of `handleSubmit`
(`Date.now()` and `new Date().toLocaleDateString()`) and the answer of
`window.confirm` are explicit arguments.

JavaScript strings are modelled by `String`, a record id (a number produced by
`Date.now()`) by `Int`.  Truthiness is modelled as in the language: the empty
string, `null` and the number `0` are falsy.
-/

namespace PatientRegistry

/-! ## Data model -/

/-- The six form fields of `formData` (lines 12-19). -/
structure FormData where
  nombre : String
  apellido : String
  dni : String
  edad : String
  obraSocial : String
  detalles : String
deriving DecidableEq, Repr

/-- A stored record: `{ ...formData, id, fechaRegistro }` (lines 70-74). -/
structure Patient where
  nombre : String
  apellido : String
  dni : String
  edad : String
  obraSocial : String
  detalles : String
  id : Int
  fechaRegistro : String
deriving DecidableEq, Repr

/-- The values offered by the search-type `<select>` (lines 189-192). -/
inductive SearchType where
  | all
  | dni
  | apellido
  | obraSocial
deriving DecidableEq, Repr

/-- The state variables of the component (lines 5-19). -/
structure State where
  patients : List Patient
  searchTerm : String
  searchType : SearchType
  showForm : Bool
  selectedPatient : Option Patient
  editingId : Option Int
  isLoading : Bool
  formData : FormData
deriving DecidableEq, Repr

/-- The blank form written by `handleSubmit`, `handleCancel` and the
"Nuevo Paciente" button. -/
def emptyForm : FormData :=
  { nombre := "", apellido := "", dni := "", edad := "", obraSocial := "", detalles := "" }

/-- The state built by the `useState` initialisers (lines 5-19). -/
def initialState : State :=
  { patients := [], searchTerm := "", searchType := SearchType.all, showForm := false,
    selectedPatient := none, editingId := none, isLoading := true, formData := emptyForm }

/-! ## JavaScript primitives -/

/-- Truthiness of a string: every string but the empty one. -/
def truthyStr (s : String) : Bool := !(s == "")

/-- Truthiness of `editingId`: `null` and `0` are falsy. -/
def truthyId : Option Int → Bool
  | none => false
  | some n => !(n == 0)

/-- The method `String.prototype.includes`: `includes s t` is `s.includes(t)`,
containment of `t` in `s` as a contiguous run of characters. -/
def includes (s t : String) : Bool := decide (t.data <:+: s.data)

/-- The method `String.prototype.toLowerCase`.  Its Unicode tables are not part
of the program, so the function is a parameter of the filter; the one fact
recorded about it is that it maps the empty string to itself. -/
structure LowerCase where
  toLowerCase : String → String
  toLowerCase_empty : toLowerCase "" = ""

/-- Lower-casing of the letters `A`-`Z`, every other character unchanged: the
restriction of `toLowerCase` to ASCII text. -/
def asciiLower : LowerCase where
  toLowerCase s := String.mk (s.data.map Char.toLower)
  toLowerCase_empty := rfl

/-- The expression `selectedPatient?.id === x` for a number `x`. -/
def selectedHasId (sel : Option Patient) (x : Int) : Bool :=
  match sel with
  | none => false
  | some p => p.id == x

/-! ## Event handlers -/

/-- The object `{ ...formData, id, fechaRegistro }`. -/
def mkPatient (fd : FormData) (id : Int) (fechaRegistro : String) : Patient :=
  { nombre := fd.nombre, apellido := fd.apellido, dni := fd.dni, edad := fd.edad,
    obraSocial := fd.obraSocial, detalles := fd.detalles, id := id,
    fechaRegistro := fechaRegistro }

/-- The guard of `handleSubmit` (line 53). -/
def formComplete (fd : FormData) : Bool :=
  truthyStr fd.nombre && truthyStr fd.apellido && truthyStr fd.dni

/-- The updater passed to `setPatients` in the edit branch (lines 56-60). -/
def updatePatients (fd : FormData) (editingId : Int) (prev : List Patient) : List Patient :=
  prev.map fun p => if p.id = editingId then mkPatient fd editingId p.fechaRegistro else p

/-- The function `handleSubmit` (lines 52-88); `now` is `Date.now()` and
`today` is `new Date().toLocaleDateString()`. -/
def handleSubmit (now : Int) (today : String) (s : State) : State :=
  if formComplete s.formData then
    if truthyId s.editingId then
      match s.editingId with
      | some eid =>
        { s with
          patients := updatePatients s.formData eid s.patients
          selectedPatient :=
            if selectedHasId s.selectedPatient eid then
              s.selectedPatient.map fun prev => mkPatient s.formData eid prev.fechaRegistro
            else s.selectedPatient
          editingId := none
          formData := emptyForm
          showForm := false }
      | none => s
    else
      { s with
        patients := s.patients ++ [mkPatient s.formData now today]
        formData := emptyForm
        showForm := false }
  else s

/-- The function `handleEdit` (lines 90-101). -/
def handleEdit (patient : Patient) (s : State) : State :=
  { s with
    formData :=
      { nombre := patient.nombre, apellido := patient.apellido, dni := patient.dni,
        edad := patient.edad, obraSocial := patient.obraSocial, detalles := patient.detalles }
    editingId := some patient.id
    showForm := true }

/-- The function `handleCancel` (lines 103-114). -/
def handleCancel (s : State) : State :=
  { s with formData := emptyForm, editingId := none, showForm := false }

/-- The function `handleDelete` (lines 116-123); `confirm` is the answer of
`window.confirm`. -/
def handleDelete (confirm : Bool) (id : Int) (s : State) : State :=
  if confirm then
    { s with
      patients := s.patients.filter fun p => !(p.id == id)
      selectedPatient := if selectedHasId s.selectedPatient id then none else s.selectedPatient }
  else s

/-! ## Search filter -/

/-- The predicate passed to `patients.filter` (lines 125-144). -/
def matchesSearch (L : LowerCase) (searchTerm : String) (searchType : SearchType)
    (patient : Patient) : Bool :=
  let search := L.toLowerCase searchTerm
  if !truthyStr search then true
  else
    match searchType with
    | SearchType.dni => includes patient.dni search
    | SearchType.apellido => includes (L.toLowerCase patient.apellido) search
    | SearchType.obraSocial => includes (L.toLowerCase patient.obraSocial) search
    | SearchType.all =>
      includes (L.toLowerCase patient.nombre) search ||
      includes (L.toLowerCase patient.apellido) search ||
      includes patient.dni search ||
      includes (L.toLowerCase patient.obraSocial) search

/-- The derived value `filteredPatients` (lines 125-144). -/
def filteredPatients (L : LowerCase) (s : State) : List Patient :=
  s.patients.filter (matchesSearch L s.searchTerm s.searchType)

/-- The selection-reconciliation effect (lines 147-151). -/
def reconcileSelection (L : LowerCase) (s : State) : State :=
  match s.selectedPatient with
  | none => s
  | some sel =>
    if ((filteredPatients L s).find? fun p => p.id == sel.id).isSome then s
    else { s with selectedPatient := none }

/-! ## Store operations as actions -/

/-- The presence condition of the data model: the three required fields of a
stored record are non-empty. -/
def requiredPresent (p : Patient) : Prop :=
  p.nombre ≠ "" ∧ p.apellido ≠ "" ∧ p.dni ≠ ""

instance (p : Patient) : Decidable (requiredPresent p) := by
  unfold requiredPresent
  infer_instance

/-- A call of one of the two mutating handlers.  A submit carries the contents
of `editingId` and `formData` at the time of the call together with the two
clock reads; a delete carries the answer of `window.confirm` and the id. -/
inductive StoreAction where
  | submit (editingId : Option Int) (formData : FormData) (now : Int) (today : String)
  | delete (confirm : Bool) (id : Int)
deriving DecidableEq, Repr

/-- Running one call on a state. -/
def StoreAction.run (a : StoreAction) (s : State) : State :=
  match a with
  | StoreAction.submit e fd now today =>
    handleSubmit now today { s with editingId := e, formData := fd }
  | StoreAction.delete c id => handleDelete c id s

/-- Running a sequence of calls, first call first. -/
def runActions (as : List StoreAction) (s : State) : State :=
  as.foldl (fun st a => a.run st) s

/-- The record read back under an id: the first record of the collection with
that id, as `Array.prototype.find` returns it. -/
def readBack (ps : List Patient) (id : Int) : Option Patient :=
  ps.find? fun q => q.id == id

/-! ## The component as a transition system -/

/-- The `name` attributes of the six form inputs (lines 221-269). -/
inductive FieldName where
  | nombre
  | apellido
  | dni
  | edad
  | obraSocial
  | detalles
deriving DecidableEq, Repr

/-- The function `handleInputChange` (lines 47-50): `{ ...prev, [name]: value }`. -/
def handleInputChange (name : FieldName) (value : String) (s : State) : State :=
  { s with
    formData :=
      match name with
      | FieldName.nombre => { s.formData with nombre := value }
      | FieldName.apellido => { s.formData with apellido := value }
      | FieldName.dni => { s.formData with dni := value }
      | FieldName.edad => { s.formData with edad := value }
      | FieldName.obraSocial => { s.formData with obraSocial := value }
      | FieldName.detalles => { s.formData with detalles := value } }

/-- The click handler of the "Nuevo Paciente" button (lines 196-207). -/
def handleNewPatientClick (s : State) : State :=
  { s with editingId := none, formData := emptyForm, showForm := !s.showForm }

/-- The user events wired in the rendered tree (lines 164-409). -/
inductive UiEvent where
  | select (patient : Patient)
  | inputChange (name : FieldName) (value : String)
  | newPatientClick
  | edit (patient : Patient)
  | cancel
  | submit (now : Int) (today : String)
  | delete (confirm : Bool) (id : Int)
  | setSearchTerm (value : String)
  | setSearchType (value : SearchType)
deriving DecidableEq, Repr

/-- The state change an event makes, before the effects run. -/
def UiEvent.apply (e : UiEvent) (s : State) : State :=
  match e with
  | UiEvent.select patient => { s with selectedPatient := some patient }
  | UiEvent.inputChange name value => handleInputChange name value s
  | UiEvent.newPatientClick => handleNewPatientClick s
  | UiEvent.edit patient => handleEdit patient s
  | UiEvent.cancel => handleCancel s
  | UiEvent.submit now today => handleSubmit now today s
  | UiEvent.delete confirm id => handleDelete confirm id s
  | UiEvent.setSearchTerm value => { s with searchTerm := value }
  | UiEvent.setSearchType value => { s with searchType := value }

/-- When an event can happen.  Only rows of `filteredPatients` are rendered, so
a record can be selected only if it is in the filtered view (lines 301-322);
the other events are left unconstrained, which covers every way the rendered
tree can fire them. -/
def UiEvent.enabled (L : LowerCase) (e : UiEvent) (s : State) : Bool :=
  match e with
  | UiEvent.select patient => decide (patient ∈ filteredPatients L s)
  | _ => true

/-- One step: the event, then the selection-reconciliation effect. -/
def uiStep (L : LowerCase) (e : UiEvent) (s : State) : State :=
  reconcileSelection L (e.apply s)

/-- The states reachable from the initial state by enabled steps. -/
inductive Reachable (L : LowerCase) : State → Prop where
  | init : Reachable L initialState
  | step (e : UiEvent) (s : State) :
      Reachable L s → e.enabled L s = true → Reachable L (uiStep L e s)

/-- A run of events, first event first. -/
def runEvents (L : LowerCase) (es : List UiEvent) (s : State) : State :=
  es.foldl (fun st e => uiStep L e st) s

/-- The events of a run are enabled one after the other. -/
def runEnabled (L : LowerCase) : List UiEvent → State → Bool
  | [], _ => true
  | e :: es, s => e.enabled L s && runEnabled L es (uiStep L e s)

/-! ## Persistence

The slot of `localStorage` holds the text `JSON.stringify(patients)`.  The two
platform functions are modelled on the values the component passes to them: a
collection is an array of objects with the members `nombre`, `apellido`, `dni`,
`edad`, `obraSocial`, `detalles` (strings), `id` (an integer, printed in
decimal) and `fechaRegistro` (a string), in the order in which
`{ ...formData, id, fechaRegistro }` creates them.  `JSONparse` reads the texts
of that form, without insignificant white space; on any other text it gives
`none`, which `load` treats like the exception of `JSON.parse`.

`localStorage` is a list of key-value pairs with a quota of characters.  A
`setItem` that would exceed the quota throws, as the browser does when the
store is full; the persist effect catches the exception and the store stays as
it was.
-/

/-- The double quote, U+0022. -/
def dquote : Char := Char.ofNat 34

/-- The reverse solidus, U+005C. -/
def backslash : Char := Char.ofNat 92

/-- The left curly bracket, U+007B. -/
def lbrace : Char := Char.ofNat 123

/-- The right curly bracket, U+007D. -/
def rbrace : Char := Char.ofNat 125

/-- The lower-case hexadecimal digit of a number below 16. -/
def hexChar (n : Nat) : Char :=
  if n < 10 then Char.ofNat (48 + n) else Char.ofNat (87 + n)

/-- The value of a hexadecimal digit, either case. -/
def hexValue (c : Char) : Option Nat :=
  if 48 ≤ c.toNat ∧ c.toNat ≤ 57 then some (c.toNat - 48)
  else if 97 ≤ c.toNat ∧ c.toNat ≤ 102 then some (c.toNat - 87)
  else if 65 ≤ c.toNat ∧ c.toNat ≤ 70 then some (c.toNat - 55)
  else none

/-- The escape of one character in `QuoteJSONString`: the two-character escapes
for the quote, the backslash and the five named control characters, the
`u00xx` escape for the other characters below U+0020, the character itself
otherwise. -/
def quoteChar (c : Char) : List Char :=
  if c = dquote then [backslash, dquote]
  else if c = backslash then [backslash, backslash]
  else if c = Char.ofNat 8 then [backslash, 'b']
  else if c = Char.ofNat 9 then [backslash, 't']
  else if c = Char.ofNat 10 then [backslash, 'n']
  else if c = Char.ofNat 12 then [backslash, 'f']
  else if c = Char.ofNat 13 then [backslash, 'r']
  else if c.toNat < 32 then
    [backslash, 'u', '0', '0', hexChar (c.toNat / 16), hexChar (c.toNat % 16)]
  else [c]

/-- The escapes of the characters of a string, concatenated. -/
def quoteChars : List Char → List Char
  | [] => []
  | c :: cs => quoteChar c ++ quoteChars cs

/-- The character a two-character escape stands for. -/
def unescape (e : Char) : Option Char :=
  if e = dquote then some dquote
  else if e = backslash then some backslash
  else if e = '/' then some '/'
  else if e = 'b' then some (Char.ofNat 8)
  else if e = 't' then some (Char.ofNat 9)
  else if e = 'n' then some (Char.ofNat 10)
  else if e = 'f' then some (Char.ofNat 12)
  else if e = 'r' then some (Char.ofNat 13)
  else none

/-- The character a `u` escape with four hexadecimal digits stands for;
escaped surrogate code units are not read. -/
def codeUnit (a b c d : Char) : Option Char :=
  match hexValue a, hexValue b, hexValue c, hexValue d with
  | some x, some y, some z, some w =>
    let v := ((x * 16 + y) * 16 + z) * 16 + w
    if 55296 ≤ v ∧ v ≤ 57343 then none else some (Char.ofNat v)
  | _, _, _, _ => none

/-- Putting a decoded character before the rest of a decoded string. -/
def prepend (c : Option Char) (r : Option (List Char × List Char)) :
    Option (List Char × List Char) :=
  match c, r with
  | some ch, some (cs, rest) => some (ch :: cs, rest)
  | _, _ => none

/-- Reading the characters of a JSON string after its opening quote, up to and
including the closing quote; gives the decoded characters and the text that
follows.  A raw character below U+0020 is rejected. -/
def parseStringBody : List Char → Option (List Char × List Char)
  | [] => none
  | c :: rest =>
    if c = dquote then some ([], rest)
    else if c = backslash then
      match rest with
      | [] => none
      | e :: rest₁ =>
        if e = 'u' then
          match rest₁ with
          | h₁ :: h₂ :: h₃ :: h₄ :: rest₂ => prepend (codeUnit h₁ h₂ h₃ h₄) (parseStringBody rest₂)
          | _ => none
        else prepend (unescape e) (parseStringBody rest₁)
    else if c.toNat < 32 then none
    else prepend (some c) (parseStringBody rest)

/-- The decimal digit of a number below 10. -/
def digitChar (d : Nat) : Char := Char.ofNat (48 + d)

/-- The decimal digits of `n`, most significant first, put before `acc`; the
first argument bounds the number of digits produced. -/
def natCharsAux : Nat → Nat → List Char → List Char
  | 0, _, acc => acc
  | fuel + 1, n, acc =>
    if n < 10 then digitChar n :: acc
    else natCharsAux fuel (n / 10) (digitChar (n % 10) :: acc)

/-- The decimal numeral of a natural number. -/
def natChars (n : Nat) : List Char := natCharsAux (n + 1) n []

/-- The numeral `JSON.stringify` prints for an integer: its decimal digits,
with a minus sign if it is negative.  This is the platform's output for every
integer below `10 ^ 21` in absolute value, the range of `Date.now()`. -/
def intChars (i : Int) : List Char :=
  if i < 0 then '-' :: natChars i.natAbs else natChars i.natAbs

/-- The value of a run of decimal digits. -/
def digitsValue (cs : List Char) : Nat :=
  cs.foldl (fun acc c => 10 * acc + (c.toNat - 48)) 0

/-- Reading a natural-number numeral: a non-empty run of digits without a
superfluous leading zero. -/
def parseNat (input : List Char) : Option (Nat × List Char) :=
  let ds := input.takeWhile Char.isDigit
  if ds = [] then none
  else if ds.head? = some '0' ∧ ds.length ≠ 1 then none
  else some (digitsValue ds, input.dropWhile Char.isDigit)

/-- Reading an integer numeral, with an optional minus sign. -/
def parseInt (input : List Char) : Option (Int × List Char) :=
  match input with
  | [] => none
  | c :: rest =>
    if c = '-' then (parseNat rest).map fun r => (-(r.1 : Int), r.2)
    else (parseNat input).map fun r => ((r.1 : Int), r.2)

/-- The text of a member name followed by the colon. -/
def keyText (name : String) : List Char := [dquote] ++ name.data ++ [dquote, ':']

/-- The operation `QuoteJSONString`: the escaped characters between quotes. -/
def quoteJSONString (s : String) : List Char := [dquote] ++ quoteChars s.data ++ [dquote]

/-- An object member with a string value. -/
def stringMember (name value : String) : List Char :=
  keyText name ++ quoteJSONString value

/-- An object member with an integer value. -/
def numberMember (name : String) (value : Int) : List Char :=
  keyText name ++ intChars value

/-- The text `JSON.stringify` prints for one record. -/
def stringifyPatient (p : Patient) : List Char :=
  [lbrace] ++ stringMember "nombre" p.nombre ++ [','] ++
    stringMember "apellido" p.apellido ++ [','] ++
    stringMember "dni" p.dni ++ [','] ++
    stringMember "edad" p.edad ++ [','] ++
    stringMember "obraSocial" p.obraSocial ++ [','] ++
    stringMember "detalles" p.detalles ++ [','] ++
    numberMember "id" p.id ++ [','] ++
    stringMember "fechaRegistro" p.fechaRegistro ++ [rbrace]

/-- The texts of the records, separated by commas. -/
def stringifyElements : List Patient → List Char
  | [] => []
  | p :: rest =>
    match rest with
    | [] => stringifyPatient p
    | _ :: _ => stringifyPatient p ++ [','] ++ stringifyElements rest

/-- The call `JSON.stringify(patients)` (line 40). -/
def JSONstringify (patients : List Patient) : String :=
  String.mk (['['] ++ stringifyElements patients ++ [']'])

/-- Reading a fixed text; gives the text that follows it. -/
def expect : List Char → List Char → Option (List Char)
  | [], input => some input
  | _ :: _, [] => none
  | c :: cs, d :: ds => if c = d then expect cs ds else none

/-- Reading a JSON string. -/
def parseString (input : List Char) : Option (String × List Char) :=
  (expect [dquote] input).bind fun r =>
    (parseStringBody r).map fun v => (String.mk v.1, v.2)

/-- Reading the member of the given name with a string value. -/
def parseStringMember (name : String) (input : List Char) : Option (String × List Char) :=
  (expect (keyText name) input).bind parseString

/-- Reading the member of the given name with an integer value. -/
def parseNumberMember (name : String) (input : List Char) : Option (Int × List Char) :=
  (expect (keyText name) input).bind parseInt

/-- Reading a comma and the string member of the given name. -/
def parseNextStringMember (name : String) (input : List Char) : Option (String × List Char) :=
  (expect [','] input).bind (parseStringMember name)

/-- Reading a comma and the integer member of the given name. -/
def parseNextNumberMember (name : String) (input : List Char) : Option (Int × List Char) :=
  (expect [','] input).bind (parseNumberMember name)

/-- Reading the text of one record; gives the record and the text that
follows. -/
def parsePatient (input : List Char) : Option (Patient × List Char) :=
  (expect [lbrace] input).bind fun r =>
  (parseStringMember "nombre" r).bind fun nombre =>
  (parseNextStringMember "apellido" nombre.2).bind fun apellido =>
  (parseNextStringMember "dni" apellido.2).bind fun dni =>
  (parseNextStringMember "edad" dni.2).bind fun edad =>
  (parseNextStringMember "obraSocial" edad.2).bind fun obraSocial =>
  (parseNextStringMember "detalles" obraSocial.2).bind fun detalles =>
  (parseNextNumberMember "id" detalles.2).bind fun id =>
  (parseNextStringMember "fechaRegistro" id.2).bind fun fechaRegistro =>
  (expect [rbrace] fechaRegistro.2).map fun r =>
    ({ nombre := nombre.1, apellido := apellido.1, dni := dni.1, edad := edad.1,
       obraSocial := obraSocial.1, detalles := detalles.1, id := id.1,
       fechaRegistro := fechaRegistro.1 }, r)

/-- Reading the records of a non-empty array up to and including the closing
bracket; the first argument bounds the number of records read. -/
def parseElements : Nat → List Char → Option (List Patient)
  | 0, _ => none
  | fuel + 1, input =>
    (parsePatient input).bind fun r =>
      match r.2 with
      | [] => none
      | c :: rest =>
        if c = ']' ∧ rest = [] then some [r.1]
        else if c = ',' then (parseElements fuel rest).map fun ps => r.1 :: ps
        else none

/-- The call `JSON.parse(savedData)` (line 26) on the text of a collection;
`none` stands for the exception. -/
def JSONparse (text : String) : Option (List Patient) :=
  match text.data with
  | [] => none
  | c :: rest =>
    if c = '[' then
      if rest = [']'] then some [] else parseElements rest.length rest
    else none

/-- The exception `localStorage.setItem` throws when the store has no room for
the write. -/
inductive StorageError where
  | quotaExceeded
deriving DecidableEq, Repr

/-- The state of `localStorage`: its key-value pairs, at most one per key as
far as `setItem` writes them, and the number of characters (keys and values
together) the browser lets it hold. -/
structure Storage where
  items : List (String × String)
  quota : Nat
deriving DecidableEq, Repr

/-- The number of characters a list of pairs occupies. -/
def storageSize (items : List (String × String)) : Nat :=
  (items.map fun kv => kv.1.length + kv.2.length).sum

/-- The method `localStorage.getItem`; `none` is `null`. -/
def getItem (storage : Storage) (key : String) : Option String :=
  (storage.items.find? fun kv => kv.1 == key).map Prod.snd

/-- The pairs of the store after `key` is given the value `value`. -/
def itemsAfterWrite (storage : Storage) (key value : String) : List (String × String) :=
  (key, value) :: storage.items.filter fun kv => !(kv.1 == key)

/-- Whether the store has room for giving `key` the value `value`. -/
def accepts (storage : Storage) (key value : String) : Bool :=
  decide (storageSize (itemsAfterWrite storage key value) ≤ storage.quota)

/-- The method `localStorage.setItem`: the pair replaces the one of the same
key if the store has room for it; otherwise the call throws and the store is
as before. -/
def setItem (storage : Storage) (key value : String) : Except StorageError Storage :=
  if accepts storage key value then
    Except.ok { storage with items := itemsAfterWrite storage key value }
  else Except.error StorageError.quotaExceeded

/-- The load effect (lines 22-34): the saved text, if there is one and it is
not empty, is parsed and becomes the collection; an exception of `JSON.parse`
is swallowed; `isLoading` is cleared in every case. -/
def loadEffect (storage : Storage) (s : State) : State :=
  let loaded :=
    match getItem storage "patients-data" with
    | none => s
    | some savedData =>
      if truthyStr savedData then
        match JSONparse savedData with
        | some data => { s with patients := data }
        | none => s
      else s
  { loaded with isLoading := false }

/-- The persist effect (lines 37-45): once loading is over, the whole
collection is written to the slot; if `setItem` throws, the exception is
caught and logged, and the store is as before. -/
def persistEffect (s : State) (storage : Storage) : Storage :=
  if !s.isLoading then
    match setItem storage "patients-data" (JSONstringify s.patients) with
    | Except.ok written => written
    | Except.error _ => storage
  else storage

/-- The selected record, if any, is a record of the collection. -/
def SelectionStored (s : State) : Prop :=
  ∀ sel, s.selectedPatient = some sel → sel ∈ s.patients

/-! ## Sample data -/

/-- A complete form. -/
def sampleForm : FormData :=
  { nombre := "Ana", apellido := "Diaz", dni := "1234", edad := "41",
    obraSocial := "OSDE", detalles := "" }

/-- A second complete form. -/
def otherForm : FormData :=
  { nombre := "Luis", apellido := "Smith", dni := "5678", edad := "",
    obraSocial := "", detalles := "control" }

/-- A record whose dni holds a letter. -/
def letterDni : Patient :=
  mkPatient { sampleForm with dni := "12345678Z" } 1700000000000 "14/11/2023"

/-- A state whose collection holds one record with id 5. -/
def stateWithId5 : State :=
  { initialState with
    isLoading := false
    patients := [mkPatient otherForm 5 "1/1/1970"]
    formData := sampleForm }

/-- A state whose collection holds one record with id 0 and whose form is open
for editing that record with new contents. -/
def stateEditingId0 : State :=
  { initialState with
    isLoading := false
    patients := [mkPatient otherForm 0 "1/1/1970"]
    editingId := some 0
    formData := sampleForm
    showForm := true }

/-- A state whose collection holds two records with the same id 7. -/
def stateTwoWithId7 : State :=
  { initialState with
    isLoading := false
    patients := [mkPatient sampleForm 7 "1/1/1970", mkPatient otherForm 7 "1/1/1970"] }

/-- A state with two records of distinct ids, the form open for editing the
first of them. -/
def stateTwoDistinct : State :=
  { initialState with
    isLoading := false
    patients := [mkPatient sampleForm 7 "1/1/1970", mkPatient otherForm 8 "2/1/1970"]
    editingId := some 7
    formData := otherForm
    showForm := true }

/-- A state searching for "SMITH" among the last names of two records. -/
def stateSearchSmith : State :=
  { initialState with
    isLoading := false
    patients := [mkPatient sampleForm 7 "1/1/1970", mkPatient otherForm 8 "2/1/1970"]
    searchTerm := "SMITH"
    searchType := SearchType.apellido }

/-- A sequence of calls: two creations, an edit of the first record, a refused
submit with an empty dni, and a deletion. -/
def sampleActions : List StoreAction :=
  [StoreAction.submit none sampleForm 7 "1/1/1970",
   StoreAction.submit none otherForm 8 "2/1/1970",
   StoreAction.submit (some 7) { otherForm with nombre := "Ana Maria" } 9 "3/1/1970",
   StoreAction.submit none { sampleForm with dni := "" } 10 "4/1/1970",
   StoreAction.delete true 8]

/-- A record whose fields need every kind of escape, with a negative id. -/
def escapedRecord : Patient :=
  mkPatient
    { nombre := String.mk [Char.ofNat 65, dquote, backslash, Char.ofNat 9, Char.ofNat 1],
      apellido := "Díaz", dni := "1234", edad := "", obraSocial := "",
      detalles := String.mk [Char.ofNat 97, Char.ofNat 10, Char.ofNat 98] }
    (-17) "1/1/1970"

/-- A state past loading whose collection holds the escaped record and a
plain one. -/
def stateToPersist : State :=
  { initialState with
    isLoading := false
    patients := [escapedRecord, mkPatient otherForm 1700000000000 "14/11/2023"] }

/-- A store with room for five million characters, nothing written yet. -/
def roomyStorage : Storage := { items := [], quota := 5000000 }

/-- A store whose slot holds the text of the empty collection and which has
room for exactly that: 13 characters of key and 2 of value. -/
def fullStorage : Storage :=
  { items := [("patients-data", JSONstringify [])], quota := 15 }

/-- A session: fill the form, save, select the new record, search for it by
last name, edit it from the details panel and save. -/
def sampleSession : List UiEvent :=
  [UiEvent.newPatientClick,
   UiEvent.inputChange FieldName.nombre "Ana",
   UiEvent.inputChange FieldName.apellido "Diaz",
   UiEvent.inputChange FieldName.dni "1234",
   UiEvent.submit 7 "1/1/1970",
   UiEvent.select (mkPatient { emptyForm with nombre := "Ana", apellido := "Diaz", dni := "1234" }
     7 "1/1/1970"),
   UiEvent.setSearchType SearchType.apellido,
   UiEvent.setSearchTerm "DIA",
   UiEvent.edit (mkPatient { emptyForm with nombre := "Ana", apellido := "Diaz", dni := "1234" }
     7 "1/1/1970"),
   UiEvent.inputChange FieldName.edad "41",
   UiEvent.submit 9 "2/1/1970"]

end PatientRegistry

namespace PatientRegistry

/-! ## Basic facts about the handlers -/

theorem truthyStr_eq_true (x : String) : truthyStr x = true ↔ x ≠ "" := by
  simp [truthyStr]

theorem formComplete_iff (fd : FormData) :
    formComplete fd = true ↔ fd.nombre ≠ "" ∧ fd.apellido ≠ "" ∧ fd.dni ≠ "" := by
  simp [formComplete, truthyStr, and_assoc]

theorem truthyId_some (n : Int) : truthyId (some n) = true ↔ n ≠ 0 := by
  simp [truthyId]

theorem includes_iff (x y : String) : includes x y = true ↔ y.data <:+: x.data := by
  simp [includes]

theorem handleSubmit_incomplete (now : Int) (today : String) (s : State)
    (h : formComplete s.formData = false) : handleSubmit now today s = s := by
  simp [handleSubmit, h]

theorem handleSubmit_create_patients (now : Int) (today : String) (s : State)
    (hfd : formComplete s.formData = true) (hmode : truthyId s.editingId = false) :
    (handleSubmit now today s).patients = s.patients ++ [mkPatient s.formData now today] := by
  simp [handleSubmit, hfd, hmode]

theorem handleSubmit_edit_patients (now : Int) (today : String) (s : State) (eid : Int)
    (hfd : formComplete s.formData = true) (hmode : s.editingId = some eid) (hne : eid ≠ 0) :
    (handleSubmit now today s).patients = updatePatients s.formData eid s.patients := by
  have ht : truthyId (some eid) = true := (truthyId_some eid).2 hne
  simp [handleSubmit, hfd, hmode, ht]

theorem handleSubmit_edit_selected (now : Int) (today : String) (s : State) (eid : Int)
    (hfd : formComplete s.formData = true) (hmode : s.editingId = some eid) (hne : eid ≠ 0) :
    (handleSubmit now today s).selectedPatient =
      if selectedHasId s.selectedPatient eid then
        s.selectedPatient.map fun prev => mkPatient s.formData eid prev.fechaRegistro
      else s.selectedPatient := by
  have ht : truthyId (some eid) = true := (truthyId_some eid).2 hne
  simp [handleSubmit, hfd, hmode, ht]

theorem updatePatients_length (fd : FormData) (eid : Int) (ps : List Patient) :
    (updatePatients fd eid ps).length = ps.length := by
  simp [updatePatients]

theorem updatePatients_cons (fd : FormData) (eid : Int) (a : Patient) (t : List Patient) :
    updatePatients fd eid (a :: t)
      = (if a.id = eid then mkPatient fd eid a.fechaRegistro else a) :: updatePatients fd eid t :=
  rfl

theorem updatePatients_find (fd : FormData) (eid : Int) (ps : List Patient) (p : Patient)
    (h : ps.find? (fun q => q.id == eid) = some p) :
    (updatePatients fd eid ps).find? (fun q => q.id == eid)
      = some (mkPatient fd eid p.fechaRegistro) := by
  induction ps with
  | nil => simp at h
  | cons a t ih =>
    rw [updatePatients_cons]
    by_cases ha : a.id = eid
    · rw [List.find?_cons_of_pos _ (by simp [ha])] at h
      have hp : a = p := by simpa using h
      subst hp
      rw [if_pos ha, List.find?_cons_of_pos _ (by simp [mkPatient])]
    · rw [List.find?_cons_of_neg _ (by simp [ha])] at h
      rw [if_neg ha, List.find?_cons_of_neg _ (by simp [ha])]
      exact ih h

theorem updatePatients_absent (fd : FormData) (eid : Int) (ps : List Patient)
    (h : ∀ p ∈ ps, p.id ≠ eid) : updatePatients fd eid ps = ps := by
  induction ps with
  | nil => rfl
  | cons a t ih =>
    have ha : a.id ≠ eid := h a (List.mem_cons_self a t)
    have ht : updatePatients fd eid t = t := ih fun p hp => h p (List.mem_cons_of_mem a hp)
    simp only [updatePatients, List.map_cons] at ht ⊢
    rw [ht]
    simp [ha]

theorem updatePatients_getElem? (fd : FormData) (eid : Int) (ps : List Patient) (i : Nat)
    (p : Patient) (hi : ps[i]? = some p) (hp : p.id ≠ eid) :
    (updatePatients fd eid ps)[i]? = some p := by
  simp [updatePatients, List.getElem?_map, hi, hp]

end PatientRegistry

namespace PatientRegistry

/-! ## Helper lemmas -/

theorem handleSubmit_patients_cases (now : Int) (today : String) (s : State) :
    (handleSubmit now today s).patients = s.patients ∨
    (formComplete s.formData = true ∧
      (handleSubmit now today s).patients = s.patients ++ [mkPatient s.formData now today]) ∨
    (formComplete s.formData = true ∧
      ∃ eid, (handleSubmit now today s).patients = updatePatients s.formData eid s.patients) := by
  by_cases hfd : formComplete s.formData = true
  · by_cases hm : truthyId s.editingId = true
    · cases he : s.editingId with
      | none => rw [he] at hm; exact absurd hm (by decide)
      | some eid =>
        rw [he, truthyId_some] at hm
        exact Or.inr (Or.inr ⟨hfd, eid, handleSubmit_edit_patients now today s eid hfd he hm⟩)
    · have hm' : truthyId s.editingId = false := by simpa using hm
      exact Or.inr (Or.inl ⟨hfd, handleSubmit_create_patients now today s hfd hm'⟩)
  · have hfd' : formComplete s.formData = false := by simpa using hfd
    rw [handleSubmit_incomplete now today s hfd']
    exact Or.inl rfl

theorem requiredPresent_mkPatient (fd : FormData) (id : Int) (fr : String)
    (h : formComplete fd = true) : requiredPresent (mkPatient fd id fr) :=
  (formComplete_iff fd).1 h

theorem handleSubmit_requiredPresent (now : Int) (today : String) (s : State)
    (h : ∀ p ∈ s.patients, requiredPresent p) :
    ∀ p ∈ (handleSubmit now today s).patients, requiredPresent p := by
  rcases handleSubmit_patients_cases now today s with h1 | ⟨hfd, h2⟩ | ⟨hfd, eid, h3⟩
  · rw [h1]; exact h
  · rw [h2]
    intro p hp
    rcases List.mem_append.1 hp with hp | hp
    · exact h p hp
    · rw [List.mem_singleton.1 hp]
      exact requiredPresent_mkPatient _ _ _ hfd
  · rw [h3]
    intro p hp
    obtain ⟨q, hq, rfl⟩ := List.mem_map.1 hp
    by_cases hid : q.id = eid
    · rw [if_pos hid]
      exact requiredPresent_mkPatient _ _ _ hfd
    · rw [if_neg hid]
      exact h q hq

theorem handleDelete_patients (id : Int) (s : State) :
    (handleDelete true id s).patients = s.patients.filter fun p => !(p.id == id) := by
  simp [handleDelete]

theorem handleDelete_requiredPresent (c : Bool) (id : Int) (s : State)
    (h : ∀ p ∈ s.patients, requiredPresent p) :
    ∀ p ∈ (handleDelete c id s).patients, requiredPresent p := by
  cases c with
  | false => simpa [handleDelete] using h
  | true =>
    rw [handleDelete_patients]
    intro p hp
    exact h p (List.mem_filter.1 hp).1

theorem run_requiredPresent (a : StoreAction) (s : State)
    (h : ∀ p ∈ s.patients, requiredPresent p) :
    ∀ p ∈ (a.run s).patients, requiredPresent p := by
  cases a with
  | submit e fd now today => exact handleSubmit_requiredPresent now today _ h
  | delete c id => exact handleDelete_requiredPresent c id s h

theorem runActions_requiredPresent (as : List StoreAction) (s : State)
    (h : ∀ p ∈ s.patients, requiredPresent p) :
    ∀ p ∈ (runActions as s).patients, requiredPresent p := by
  induction as generalizing s with
  | nil => exact h
  | cons a t ih => exact ih (a.run s) (run_requiredPresent a s h)

theorem filter_id_ne_of_forall (id : Int) (ps : List Patient) (h : ∀ q ∈ ps, q.id ≠ id) :
    ps.filter (fun p => !(p.id == id)) = ps := by
  rw [List.filter_eq_self]
  intro q hq
  simp [h q hq]

theorem filter_id_ne_split (id : Int) (ps : List Patient)
    (h : ps.countP (fun p => p.id == id) = 1) :
    ∃ l₁ p l₂, ps = l₁ ++ p :: l₂ ∧ p.id = id ∧ (∀ q ∈ l₁ ++ l₂, q.id ≠ id) ∧
      ps.filter (fun p => !(p.id == id)) = l₁ ++ l₂ := by
  induction ps with
  | nil => simp at h
  | cons a t ih =>
    by_cases ha : a.id = id
    · have h0 : t.countP (fun p => p.id == id) = 0 := by
        rw [List.countP_cons_of_pos _ _ (by simp [ha])] at h
        omega
      have hall : ∀ q ∈ t, q.id ≠ id := by
        intro q hq hqid
        have := List.countP_eq_zero.1 h0 q hq
        simp [hqid] at this
      refine ⟨[], a, t, rfl, ha, by simpa using hall, ?_⟩
      rw [List.filter_cons_of_neg (by simp [ha]), filter_id_ne_of_forall id t hall]
      rfl
    · rw [List.countP_cons_of_neg _ _ (by simp [ha])] at h
      obtain ⟨l₁, p, l₂, hps, hp, hall, hf⟩ := ih h
      refine ⟨a :: l₁, p, l₂, by rw [hps]; rfl, hp, ?_, ?_⟩
      · intro q hq
        have hq' : q = a ∨ q ∈ l₁ ++ l₂ := by simpa using hq
        rcases hq' with rfl | hq'
        · exact ha
        · exact hall q hq'
      · rw [List.filter_cons_of_pos (by simp [ha]), hf]
        rfl

theorem matchesSearch_empty (L : LowerCase) (t : SearchType) (p : Patient) :
    matchesSearch L "" t p = true := by
  simp [matchesSearch, L.toLowerCase_empty, truthyStr]

/-! ## Selection -/

theorem reconcileSelection_patients (L : LowerCase) (s : State) :
    (reconcileSelection L s).patients = s.patients := by
  unfold reconcileSelection
  split
  · rfl
  · split <;> rfl

theorem filteredPatients_reconcileSelection (L : LowerCase) (s : State) :
    filteredPatients L (reconcileSelection L s) = filteredPatients L s := by
  unfold reconcileSelection
  split
  · rfl
  · split <;> rfl

theorem reconcileSelection_selected (L : LowerCase) (s : State) (sel : Patient)
    (h : (reconcileSelection L s).selectedPatient = some sel) :
    s.selectedPatient = some sel ∧ ∃ q ∈ filteredPatients L s, q.id = sel.id := by
  unfold reconcileSelection at h
  split at h
  · rename_i hn
    rw [hn] at h
    exact absurd h (by simp)
  · rename_i sel₀ hs
    split at h
    · rename_i hfound
      have hsel : sel₀ = sel := by
        rw [hs] at h
        exact Option.some.inj h
      subst hsel
      refine ⟨hs, ?_⟩
      rw [List.find?_isSome] at hfound
      obtain ⟨q, hq, hqid⟩ := hfound
      exact ⟨q, hq, by simpa using hqid⟩
    · exact absurd h (by simp)

theorem handleSubmit_selectionStored (now : Int) (today : String) (s : State)
    (h : SelectionStored s) : SelectionStored (handleSubmit now today s) := by
  by_cases hfd : formComplete s.formData = true
  · by_cases hm : truthyId s.editingId = true
    · cases he : s.editingId with
      | none => rw [he] at hm; exact absurd hm (by decide)
      | some eid =>
        have hne : eid ≠ 0 := by rw [he, truthyId_some] at hm; exact hm
        intro sel hsel
        rw [handleSubmit_edit_patients now today s eid hfd he hne]
        rw [handleSubmit_edit_selected now today s eid hfd he hne] at hsel
        cases hprev : s.selectedPatient with
        | none => rw [hprev] at hsel; simp [selectedHasId] at hsel
        | some prev =>
          rw [hprev] at hsel
          have hmem : prev ∈ s.patients := h prev hprev
          by_cases hid : prev.id = eid
          · have hsel' : mkPatient s.formData eid prev.fechaRegistro = sel := by
              simpa [selectedHasId, hid] using hsel
            rw [← hsel', updatePatients, List.mem_map]
            exact ⟨prev, hmem, by rw [if_pos hid]⟩
          · have hsel' : prev = sel := by
              simpa [selectedHasId, hid] using hsel
            rw [← hsel', updatePatients, List.mem_map]
            exact ⟨prev, hmem, by rw [if_neg hid]⟩
    · have hm' : truthyId s.editingId = false := by simpa using hm
      intro sel hsel
      rw [handleSubmit_create_patients now today s hfd hm']
      have : s.selectedPatient = some sel := by
        simpa [handleSubmit, hfd, hm'] using hsel
      exact List.mem_append_left _ (h sel this)
  · have hfd' : formComplete s.formData = false := by simpa using hfd
    rw [handleSubmit_incomplete now today s hfd']
    exact h

theorem handleDelete_selectionStored (c : Bool) (id : Int) (s : State)
    (h : SelectionStored s) : SelectionStored (handleDelete c id s) := by
  cases c with
  | false => simpa [handleDelete] using h
  | true =>
    intro sel hsel
    rw [handleDelete_patients]
    cases hprev : s.selectedPatient with
    | none => simp [handleDelete, hprev, selectedHasId] at hsel
    | some prev =>
      by_cases hid : prev.id = id
      · simp [handleDelete, hprev, selectedHasId, hid] at hsel
      · have hsel' : prev = sel := by
          simpa [handleDelete, hprev, selectedHasId, hid] using hsel
        rw [← hsel', List.mem_filter]
        exact ⟨h prev hprev, by simp [hid]⟩

theorem apply_selectionStored (L : LowerCase) (e : UiEvent) (s : State)
    (he : e.enabled L s = true) (h : SelectionStored s) : SelectionStored (e.apply s) := by
  cases e with
  | select patient =>
    intro sel hsel
    have hp : patient ∈ filteredPatients L s := by simpa [UiEvent.enabled] using he
    have : patient = sel := by simpa [UiEvent.apply] using hsel
    rw [← this]
    exact (List.mem_filter.1 hp).1
  | inputChange name value => exact h
  | newPatientClick => exact h
  | edit patient => exact h
  | cancel => exact h
  | submit now today => exact handleSubmit_selectionStored now today s h
  | delete confirm id => exact handleDelete_selectionStored confirm id s h
  | setSearchTerm value => exact h
  | setSearchType value => exact h

theorem uiStep_selection (L : LowerCase) (e : UiEvent) (s : State)
    (he : e.enabled L s = true) (h : SelectionStored s) :
    ∀ sel, (uiStep L e s).selectedPatient = some sel →
      sel ∈ (uiStep L e s).patients ∧ ∃ q ∈ filteredPatients L (uiStep L e s), q.id = sel.id := by
  intro sel hsel
  unfold uiStep at hsel ⊢
  obtain ⟨h1, h2⟩ := reconcileSelection_selected L (e.apply s) sel hsel
  rw [reconcileSelection_patients, filteredPatients_reconcileSelection]
  exact ⟨apply_selectionStored L e s he h sel h1, h2⟩

theorem reachable_selection (L : LowerCase) (s : State) (hr : Reachable L s) :
    ∀ sel, s.selectedPatient = some sel →
      sel ∈ s.patients ∧ ∃ q ∈ filteredPatients L s, q.id = sel.id := by
  induction hr with
  | init => intro sel hsel; simp [initialState] at hsel
  | step e s _ he ih => exact uiStep_selection L e s he fun sel hsel => (ih sel hsel).1

theorem reachable_runEvents (L : LowerCase) (es : List UiEvent) (s : State)
    (hs : Reachable L s) (hen : runEnabled L es s = true) : Reachable L (runEvents L es s) := by
  induction es generalizing s with
  | nil => exact hs
  | cons e t ih =>
    have h2 : e.enabled L s = true ∧ runEnabled L t (uiStep L e s) = true := by
      simpa [runEnabled] using hen
    exact ih (uiStep L e s) (Reachable.step e s hs h2.1) h2.2

/-! ## Persistence round trip -/

theorem hexValue_hexChar : ∀ k, k < 16 → hexValue (hexChar k) = some k := by decide

theorem parseStringBody_cons (c : Char) (rest : List Char) :
    parseStringBody (c :: rest) =
      if c = dquote then some ([], rest)
      else if c = backslash then
        match rest with
        | [] => none
        | e :: rest₁ =>
          if e = 'u' then
            match rest₁ with
            | h₁ :: h₂ :: h₃ :: h₄ :: rest₂ => prepend (codeUnit h₁ h₂ h₃ h₄) (parseStringBody rest₂)
            | _ => none
          else prepend (unescape e) (parseStringBody rest₁)
      else if c.toNat < 32 then none
      else prepend (some c) (parseStringBody rest) := by
  rw [parseStringBody.eq_def]

theorem parseStringBody_escape (e ch : Char) (rest : List Char) (hu : e ≠ 'u')
    (he : unescape e = some ch) :
    parseStringBody (backslash :: e :: rest) = prepend (some ch) (parseStringBody rest) := by
  rw [parseStringBody_cons, if_neg (by decide), if_pos rfl]
  simp only [if_neg hu, he]

theorem parseStringBody_unicode (h₁ h₂ h₃ h₄ : Char) (rest : List Char) :
    parseStringBody (backslash :: 'u' :: h₁ :: h₂ :: h₃ :: h₄ :: rest)
      = prepend (codeUnit h₁ h₂ h₃ h₄) (parseStringBody rest) := by
  rw [parseStringBody_cons, if_neg (by decide), if_pos rfl]
  simp only [if_true]

theorem parseStringBody_literal (c : Char) (rest : List Char) (h1 : c ≠ dquote)
    (h2 : c ≠ backslash) (h3 : ¬ c.toNat < 32) :
    parseStringBody (c :: rest) = prepend (some c) (parseStringBody rest) := by
  rw [parseStringBody_cons, if_neg h1, if_neg h2, if_neg h3]

theorem codeUnit_control (c : Char) (h : c.toNat < 32) :
    codeUnit '0' '0' (hexChar (c.toNat / 16)) (hexChar (c.toNat % 16)) = some c := by
  have h0 : hexValue '0' = some 0 := by decide
  have ha : hexValue (hexChar (c.toNat / 16)) = some (c.toNat / 16) :=
    hexValue_hexChar _ (by omega)
  have hb : hexValue (hexChar (c.toNat % 16)) = some (c.toNat % 16) :=
    hexValue_hexChar _ (by omega)
  simp only [codeUnit, h0, ha, hb]
  have hv : ((0 * 16 + 0) * 16 + c.toNat / 16) * 16 + c.toNat % 16 = c.toNat := by omega
  rw [hv, if_neg (by omega), Char.ofNat_toNat]

theorem parseStringBody_quoteChars (s rest : List Char) :
    parseStringBody (quoteChars s ++ dquote :: rest) = some (s, rest) := by
  induction s with
  | nil => rw [quoteChars, List.nil_append, parseStringBody_cons, if_pos rfl]
  | cons c t ih =>
    simp only [quoteChars, List.append_assoc]
    unfold quoteChar
    split_ifs with h1 h2 h3 h4 h5 h6 h7 h8
    · rw [List.cons_append, List.cons_append, List.nil_append,
        parseStringBody_escape dquote dquote _ (by decide) (by decide), ih, h1]
      rfl
    · rw [List.cons_append, List.cons_append, List.nil_append,
        parseStringBody_escape backslash backslash _ (by decide) (by decide), ih, h2]
      rfl
    · rw [List.cons_append, List.cons_append, List.nil_append,
        parseStringBody_escape 'b' (Char.ofNat 8) _ (by decide) (by decide), ih, h3]
      rfl
    · rw [List.cons_append, List.cons_append, List.nil_append,
        parseStringBody_escape 't' (Char.ofNat 9) _ (by decide) (by decide), ih, h4]
      rfl
    · rw [List.cons_append, List.cons_append, List.nil_append,
        parseStringBody_escape 'n' (Char.ofNat 10) _ (by decide) (by decide), ih, h5]
      rfl
    · rw [List.cons_append, List.cons_append, List.nil_append,
        parseStringBody_escape 'f' (Char.ofNat 12) _ (by decide) (by decide), ih, h6]
      rfl
    · rw [List.cons_append, List.cons_append, List.nil_append,
        parseStringBody_escape 'r' (Char.ofNat 13) _ (by decide) (by decide), ih, h7]
      rfl
    · simp only [List.cons_append, List.nil_append]
      rw [parseStringBody_unicode, codeUnit_control c h8, ih]
      rfl
    · rw [List.cons_append, List.nil_append, parseStringBody_literal c _ h1 h2 h8, ih]
      rfl

theorem digitChar_isDigit : ∀ d, d < 10 → (digitChar d).isDigit = true := by decide

theorem digitChar_toNat : ∀ d, d < 10 → (digitChar d).toNat - 48 = d := by decide

theorem digitChar_eq_zero : ∀ d, d < 10 → digitChar d = '0' → d = 0 := by decide

theorem digitsValue_map_reverse (L : List Nat) (h : ∀ d ∈ L, d < 10) :
    digitsValue (L.reverse.map digitChar) = Nat.ofDigits 10 L := by
  induction L with
  | nil => rfl
  | cons d t ih =>
    have ht : ∀ x ∈ t, x < 10 := fun x hx => h x (List.mem_cons_of_mem d hx)
    have hd : d < 10 := h d (List.mem_cons_self d t)
    have ih' := ih ht
    unfold digitsValue at ih' ⊢
    rw [List.reverse_cons, List.map_append, List.foldl_append, ih', Nat.ofDigits_cons]
    simp only [List.map_cons, List.map_nil, List.foldl_cons, List.foldl_nil]
    rw [digitChar_toNat d hd]
    simp [Nat.add_comm]

theorem natCharsAux_eq (fuel n : Nat) (acc : List Char) (h : n < fuel) :
    natCharsAux fuel n acc
      = (if n = 0 then ['0'] else (Nat.digits 10 n).reverse.map digitChar) ++ acc := by
  induction fuel generalizing n acc with
  | zero => omega
  | succ k ih =>
    rw [natCharsAux]
    by_cases hlt : n < 10
    · rw [if_pos hlt]
      by_cases h0 : n = 0
      · subst h0; rfl
      · rw [if_neg h0, Nat.digits_of_lt 10 n h0 hlt]
        rfl
    · have h0 : n ≠ 0 := by omega
      have hq : n / 10 ≠ 0 := by omega
      have hd : Nat.digits 10 n = n % 10 :: Nat.digits 10 (n / 10) :=
        Nat.digits_def' (by norm_num) (by omega)
      rw [if_neg hlt, ih (n / 10) _ (by omega), if_neg hq, if_neg h0, hd]
      simp

theorem natChars_eq (n : Nat) :
    natChars n = if n = 0 then ['0'] else (Nat.digits 10 n).reverse.map digitChar := by
  rw [natChars, natCharsAux_eq (n + 1) n [] (by omega), List.append_nil]

theorem natChars_isDigit (n : Nat) : ∀ c ∈ natChars n, c.isDigit = true := by
  intro c hc
  rw [natChars_eq] at hc
  split_ifs at hc with h0
  · rw [List.mem_singleton.1 hc]; decide
  · obtain ⟨d, hd, rfl⟩ := List.mem_map.1 hc
    exact digitChar_isDigit d (Nat.digits_lt_base (by norm_num) (List.mem_reverse.1 hd))

theorem natChars_ne_nil (n : Nat) : natChars n ≠ [] := by
  rw [natChars_eq]
  split_ifs with h0
  · simp
  · simp [Nat.digits_ne_nil_iff_ne_zero, h0]

theorem digitsValue_natChars (n : Nat) : digitsValue (natChars n) = n := by
  rw [natChars_eq]
  split_ifs with h0
  · rw [h0]; rfl
  · rw [digitsValue_map_reverse _ fun d hd => Nat.digits_lt_base (by norm_num) hd,
      Nat.ofDigits_digits]

theorem natChars_leading (n : Nat) :
    ¬ ((natChars n).head? = some '0' ∧ (natChars n).length ≠ 1) := by
  rw [natChars_eq]
  split_ifs with h0
  · simp
  · rintro ⟨hh, -⟩
    have hne : Nat.digits 10 n ≠ [] := by simpa [Nat.digits_ne_nil_iff_ne_zero] using h0
    have hlast := Nat.getLast_digit_ne_zero 10 h0
    rw [List.head?_map, List.head?_reverse] at hh
    rw [List.getLast?_eq_getLast _ hne] at hh
    have hz : digitChar ((Nat.digits 10 n).getLast hne) = '0' := by simpa using hh
    exact hlast (digitChar_eq_zero _
      (Nat.digits_lt_base (by norm_num) (List.getLast_mem hne)) hz)

theorem takeWhile_append_stop (p : Char → Bool) (l : List Char) (c : Char) (r : List Char)
    (hl : ∀ x ∈ l, p x = true) (hc : p c = false) :
    (l ++ c :: r).takeWhile p = l ∧ (l ++ c :: r).dropWhile p = c :: r := by
  induction l with
  | nil => simp [List.takeWhile, List.dropWhile, hc]
  | cons a t ih =>
    have ha : p a = true := hl a (List.mem_cons_self a t)
    have := ih fun x hx => hl x (List.mem_cons_of_mem a hx)
    simp [List.takeWhile, List.dropWhile, ha, this.1, this.2]

theorem parseNat_natChars (n : Nat) (c : Char) (r : List Char) (hc : c.isDigit = false) :
    parseNat (natChars n ++ c :: r) = some (n, c :: r) := by
  obtain ⟨h1, h2⟩ := takeWhile_append_stop Char.isDigit (natChars n) c r (natChars_isDigit n) hc
  unfold parseNat
  simp only [h1, h2]
  rw [if_neg (natChars_ne_nil n), if_neg (natChars_leading n), digitsValue_natChars]

theorem parseInt_intChars (i : Int) (c : Char) (r : List Char) (hc : c.isDigit = false) :
    parseInt (intChars i ++ c :: r) = some (i, c :: r) := by
  unfold intChars
  split_ifs with hneg
  · rw [List.cons_append]
    simp only [parseInt, if_true]
    rw [parseNat_natChars _ c r hc]
    simp only [Option.map_some']
    congr 2
    omega
  · obtain ⟨a, t, hat⟩ := List.exists_cons_of_ne_nil (natChars_ne_nil i.natAbs)
    have ha : a ≠ '-' := by
      intro h
      have := natChars_isDigit i.natAbs a (by rw [hat]; exact List.mem_cons_self a t)
      rw [h] at this
      exact absurd this (by decide)
    have hp := parseNat_natChars i.natAbs c r hc
    rw [hat, List.cons_append] at hp ⊢
    simp only [parseInt, if_neg ha]
    rw [hp]
    simp only [Option.map_some']
    congr 2
    omega

theorem expect_append (lit rest : List Char) : expect lit (lit ++ rest) = some rest := by
  induction lit with
  | nil => rfl
  | cons c t ih => simp [expect, ih]

theorem parseString_quote (s : String) (rest : List Char) :
    parseString (quoteJSONString s ++ rest) = some (s, rest) := by
  unfold parseString quoteJSONString
  simp only [List.append_assoc, expect_append, Option.some_bind]
  rw [List.singleton_append, parseStringBody_quoteChars]
  rfl

theorem parseStringMember_stringMember (name value : String) (rest : List Char) :
    parseStringMember name (stringMember name value ++ rest) = some (value, rest) := by
  unfold parseStringMember stringMember
  simp only [List.append_assoc, expect_append, Option.some_bind, parseString_quote]

theorem parseNextStringMember_stringMember (name value : String) (rest : List Char) :
    parseNextStringMember name ([','] ++ (stringMember name value ++ rest))
      = some (value, rest) := by
  unfold parseNextStringMember
  simp only [expect_append, Option.some_bind, parseStringMember_stringMember]

theorem parseNumberMember_numberMember (name : String) (value : Int) (rest : List Char) :
    parseNumberMember name (numberMember name value ++ ([','] ++ rest))
      = some (value, [','] ++ rest) := by
  unfold parseNumberMember numberMember
  simp only [List.append_assoc, expect_append, Option.some_bind]
  rw [List.singleton_append, parseInt_intChars value ',' rest (by decide)]

theorem parseNextNumberMember_numberMember (name : String) (value : Int) (rest : List Char) :
    parseNextNumberMember name ([','] ++ (numberMember name value ++ ([','] ++ rest)))
      = some (value, [','] ++ rest) := by
  unfold parseNextNumberMember
  simp only [expect_append, Option.some_bind, parseNumberMember_numberMember]

theorem parsePatient_stringifyPatient (p : Patient) (rest : List Char) :
    parsePatient (stringifyPatient p ++ rest) = some (p, rest) := by
  unfold parsePatient stringifyPatient
  simp only [List.append_assoc, expect_append, Option.some_bind,
    parseStringMember_stringMember, parseNextStringMember_stringMember,
    parseNextNumberMember_numberMember, Option.map_some']

theorem stringifyPatient_eq_cons (p : Patient) :
    ∃ t, stringifyPatient p = lbrace :: t := by
  refine ⟨(stringifyPatient p).tail, ?_⟩
  unfold stringifyPatient
  simp only [List.append_assoc, List.singleton_append, List.cons_append, List.tail_cons]

theorem parseElements_stringifyElements (p : Patient) (t : List Patient) (fuel : Nat)
    (hfuel : t.length < fuel) :
    parseElements fuel (stringifyElements (p :: t) ++ [']']) = some (p :: t) := by
  induction t generalizing p fuel with
  | nil =>
    obtain ⟨k, rfl⟩ : ∃ k, fuel = k + 1 := ⟨fuel - 1, by simp at hfuel; omega⟩
    simp only [stringifyElements, parseElements, parsePatient_stringifyPatient,
      Option.some_bind]
    simp
  | cons q t ih =>
    obtain ⟨k, rfl⟩ : ∃ k, fuel = k + 1 := ⟨fuel - 1, by simp at hfuel; omega⟩
    have hk : t.length < k := by simp at hfuel; omega
    have := ih q k hk
    simp only [stringifyElements, parseElements, List.append_assoc,
      parsePatient_stringifyPatient, Option.some_bind] at this ⊢
    rw [List.singleton_append]
    simp only [if_neg (show ¬ (',' = ']' ∧ _) from fun h => absurd h.1 (by decide)), if_true]
    rw [this]
    rfl

theorem stringifyElements_length (ps : List Patient) :
    ps.length ≤ (stringifyElements ps).length := by
  induction ps with
  | nil => simp
  | cons p t ih =>
    obtain ⟨u, hu⟩ := stringifyPatient_eq_cons p
    cases t with
    | nil => simp [stringifyElements, hu]
    | cons q t =>
      simp only [stringifyElements, List.length_append, List.length_cons] at ih ⊢
      rw [hu]
      simp only [List.length_cons, List.length_nil]
      omega

theorem JSONparse_JSONstringify (ps : List Patient) :
    JSONparse (JSONstringify ps) = some ps := by
  cases ps with
  | nil => simp [JSONparse, JSONstringify, stringifyElements]
  | cons p t =>
    obtain ⟨u, hu⟩ := stringifyPatient_eq_cons p
    have hne : stringifyElements (p :: t) ++ [']'] ≠ [']'] := by
      cases t with
      | nil => simp [stringifyElements, hu]
      | cons q t => simp [stringifyElements, hu]
    have hlen := stringifyElements_length (p :: t)
    simp only [JSONparse, JSONstringify, List.append_assoc, List.singleton_append,
      List.cons_append, List.nil_append, if_true, if_neg hne]
    apply parseElements_stringifyElements
    simp only [List.length_append, List.length_cons, List.length_nil] at hlen ⊢
    omega

theorem JSONstringify_truthy (ps : List Patient) : truthyStr (JSONstringify ps) = true := by
  simp [truthyStr, JSONstringify, String.ext_iff]

theorem setItem_of_accepts (storage : Storage) (key value : String)
    (h : accepts storage key value = true) :
    setItem storage key value
      = Except.ok { storage with items := itemsAfterWrite storage key value } := by
  rw [setItem, if_pos h]

theorem setItem_of_not_accepts (storage : Storage) (key value : String)
    (h : accepts storage key value = false) :
    setItem storage key value = Except.error StorageError.quotaExceeded := by
  rw [setItem, if_neg (by simp [h])]

theorem getItem_itemsAfterWrite (storage : Storage) (key value : String) :
    getItem { storage with items := itemsAfterWrite storage key value } key = some value := by
  simp [getItem, itemsAfterWrite]

theorem persistEffect_of_accepts (s : State) (storage : Storage)
    (hloaded : s.isLoading = false)
    (h : accepts storage "patients-data" (JSONstringify s.patients) = true) :
    persistEffect s storage
      = { storage with
          items := itemsAfterWrite storage "patients-data" (JSONstringify s.patients) } := by
  simp only [persistEffect, hloaded, Bool.not_false, if_true, setItem_of_accepts _ _ _ h]

theorem persistEffect_of_not_accepts (s : State) (storage : Storage)
    (h : accepts storage "patients-data" (JSONstringify s.patients) = false) :
    persistEffect s storage = storage := by
  unfold persistEffect
  split_ifs
  · rw [setItem_of_not_accepts _ _ _ h]
  · rfl

/-! ## Claims -/

/-- C1 (evaluation at the failing input): with scope `dni` the query
"12345678Z" does not find the record whose dni is "12345678Z", although the
lower-cased query is contained in the lower-cased dni, and the same query with
scope `all` misses it too; the lower-cased query "12345678z" is compared with
the dni as stored. -/
theorem filteredPatients_dni_not_lowercased :
    includes (asciiLower.toLowerCase letterDni.dni) (asciiLower.toLowerCase "12345678Z") = true ∧
    filteredPatients asciiLower
      { initialState with
        patients := [letterDni], searchTerm := "12345678Z", searchType := SearchType.dni } = [] ∧
    filteredPatients asciiLower
      { initialState with
        patients := [letterDni], searchTerm := "12345678Z", searchType := SearchType.all } = [] := by
  decide

/-- C2 (counterexample): in create mode with a complete form, when the clock
reads 5 and the collection already holds a record with id 5, the new record is
appended with id 5, the id of the record already there. -/
theorem handleSubmit_create_id_collision :
    stateWithId5.editingId = none ∧ formComplete stateWithId5.formData = true ∧
    (handleSubmit 5 "1/1/1970" stateWithId5).patients
      = stateWithId5.patients ++ [mkPatient sampleForm 5 "1/1/1970"] ∧
    ¬ (∀ p ∈ stateWithId5.patients, p.id ≠ (mkPatient sampleForm 5 "1/1/1970").id) := by
  decide

/-- C2 (amended): in create mode with a complete form, at every value of the
clock, the collection becomes the old one followed by one new record; that
record is in the collection, has the clock value as its id, the date label as
its fechaRegistro and the fields of the form; its id is different from the id
of every record that was already there exactly when none of them has the clock
value as its id, and in that case pairwise distinct ids stay pairwise
distinct. -/
theorem handleSubmit_create_new_record (now : Int) (today : String) (s : State)
    (hmode : s.editingId = none) (hfd : formComplete s.formData = true) :
    ∃ r, (handleSubmit now today s).patients = s.patients ++ [r] ∧
      r ∈ (handleSubmit now today s).patients ∧
      r.id = now ∧ r.fechaRegistro = today ∧
      r.nombre = s.formData.nombre ∧ r.apellido = s.formData.apellido ∧
      r.dni = s.formData.dni ∧ r.edad = s.formData.edad ∧
      r.obraSocial = s.formData.obraSocial ∧ r.detalles = s.formData.detalles ∧
      ((∀ p ∈ s.patients, p.id ≠ r.id) ↔ (∀ p ∈ s.patients, p.id ≠ now)) ∧
      ((∀ p ∈ s.patients, p.id ≠ now) → (s.patients.map Patient.id).Nodup →
        ((handleSubmit now today s).patients.map Patient.id).Nodup) := by
  have hm : truthyId s.editingId = false := by rw [hmode]; rfl
  have hres := handleSubmit_create_patients now today s hfd hm
  refine ⟨mkPatient s.formData now today, hres, ?_, rfl, rfl, rfl, rfl, rfl, rfl, rfl, rfl,
    Iff.rfl, ?_⟩
  · rw [hres]; simp
  · intro hfresh hnd
    rw [hres, List.map_append, List.nodup_append]
    refine ⟨hnd, by simp, ?_⟩
    intro a ha hb
    obtain ⟨p, hp, rfl⟩ := List.mem_map.1 ha
    have : p.id = now := by simpa [mkPatient] using hb
    exact hfresh p hp this

theorem handleSubmit_create_new_record_witness :
    stateWithId5.editingId = none ∧ formComplete stateWithId5.formData = true ∧
    ∃ r, (handleSubmit 6 "1/1/1970" stateWithId5).patients = stateWithId5.patients ++ [r] ∧
      r ∈ (handleSubmit 6 "1/1/1970" stateWithId5).patients ∧
      r.id = 6 ∧ r.fechaRegistro = "1/1/1970" ∧
      r.nombre = stateWithId5.formData.nombre ∧ r.apellido = stateWithId5.formData.apellido ∧
      r.dni = stateWithId5.formData.dni ∧ r.edad = stateWithId5.formData.edad ∧
      r.obraSocial = stateWithId5.formData.obraSocial ∧
      r.detalles = stateWithId5.formData.detalles ∧
      ((∀ p ∈ stateWithId5.patients, p.id ≠ r.id) ↔ (∀ p ∈ stateWithId5.patients, p.id ≠ 6)) ∧
      ((∀ p ∈ stateWithId5.patients, p.id ≠ 6) →
        (stateWithId5.patients.map Patient.id).Nodup →
        ((handleSubmit 6 "1/1/1970" stateWithId5).patients.map Patient.id).Nodup) :=
  ⟨rfl, by decide, handleSubmit_create_new_record 6 "1/1/1970" stateWithId5 rfl (by decide)⟩

/-- C3 (evaluation at the failing input): a record with id 0, as a creation at
clock value 0 makes it, is in the collection and the form, complete, is open
for editing id 0, as `handleEdit` on that record sets it; the test
`if (editingId)` is false for 0, the submit takes the create branch, and the
record read back under id 0 still has its old nombre, not that of the form. -/
theorem handleSubmit_edit_id_zero :
    (handleSubmit 0 "1/1/1970" { initialState with formData := otherForm }).patients
      = stateEditingId0.patients ∧
    (handleEdit (mkPatient otherForm 0 "1/1/1970")
      { initialState with patients := stateEditingId0.patients }).editingId = some 0 ∧
    (∃ q ∈ stateEditingId0.patients, q.id = 0) ∧
    stateEditingId0.editingId = some 0 ∧
    formComplete stateEditingId0.formData = true ∧
    readBack (handleSubmit 9 "2/1/1970" stateEditingId0).patients 0
      = some (mkPatient otherForm 0 "1/1/1970") ∧
    (mkPatient otherForm 0 "1/1/1970").nombre ≠ stateEditingId0.formData.nombre := by
  decide

/-- The edit branch where it is taken: for every collection, every non-zero id
held by a record of the collection and every complete form, after
`handleSubmit` with that id in `editingId` the record read back under the id
has the id and the fechaRegistro of the record read back before, and its six
other fields are those of the form. -/
theorem handleSubmit_edit_readBack (now : Int) (today : String) (s : State) (eid : Int)
    (hmode : s.editingId = some eid) (hne : eid ≠ 0)
    (hheld : ∃ q ∈ s.patients, q.id = eid) (hfd : formComplete s.formData = true) :
    ∃ before after,
      readBack s.patients eid = some before ∧
      readBack (handleSubmit now today s).patients eid = some after ∧
      after.id = before.id ∧ after.id = eid ∧
      after.fechaRegistro = before.fechaRegistro ∧
      after.nombre = s.formData.nombre ∧ after.apellido = s.formData.apellido ∧
      after.dni = s.formData.dni ∧ after.edad = s.formData.edad ∧
      after.obraSocial = s.formData.obraSocial ∧ after.detalles = s.formData.detalles := by
  obtain ⟨q, hq, hqid⟩ := hheld
  have hsome : (readBack s.patients eid).isSome = true := by
    rw [readBack, List.find?_isSome]
    exact ⟨q, hq, by simp [hqid]⟩
  obtain ⟨before, hb⟩ := Option.isSome_iff_exists.1 hsome
  have hbid : before.id = eid := by
    have := List.find?_some hb
    simpa using this
  refine ⟨before, mkPatient s.formData eid before.fechaRegistro, hb, ?_, ?_⟩
  · rw [handleSubmit_edit_patients now today s eid hfd hmode hne]
    exact updatePatients_find s.formData eid s.patients before hb
  · simp [mkPatient, hbid]

theorem handleSubmit_edit_readBack_witness :
    ∃ before after,
      readBack stateTwoDistinct.patients 7 = some before ∧
      readBack (handleSubmit 9 "3/1/1970" stateTwoDistinct).patients 7 = some after ∧
      after.id = before.id ∧ after.id = 7 ∧
      after.fechaRegistro = before.fechaRegistro ∧
      after.nombre = stateTwoDistinct.formData.nombre ∧
      after.apellido = stateTwoDistinct.formData.apellido ∧
      after.dni = stateTwoDistinct.formData.dni ∧ after.edad = stateTwoDistinct.formData.edad ∧
      after.obraSocial = stateTwoDistinct.formData.obraSocial ∧
      after.detalles = stateTwoDistinct.formData.detalles :=
  handleSubmit_edit_readBack 9 "3/1/1970" stateTwoDistinct 7 rfl (by decide)
    ⟨mkPatient sampleForm 7 "1/1/1970", by decide, rfl⟩ (by decide)

/-- C4 (counterexample): two records share the id 7; a confirmed
`handleDelete 7` empties the collection, so the result is two records shorter,
not one. -/
theorem handleDelete_shared_id :
    (∃ q ∈ stateTwoWithId7.patients, q.id = 7) ∧
    stateTwoWithId7.patients.length = 2 ∧
    (handleDelete true 7 stateTwoWithId7).patients = [] := by
  decide

/-- C4 (amended): for every collection and every id held by exactly one record
of the collection, a confirmed `handleDelete id` removes exactly that record:
the collection splits as `l₁ ++ p :: l₂` with `p` the record of that id, the
result is `l₁ ++ l₂`, one record shorter, and none of its records has the id. -/
theorem handleDelete_removes_one (id : Int) (s : State)
    (hone : s.patients.countP (fun p => p.id == id) = 1) :
    ∃ l₁ p l₂, s.patients = l₁ ++ p :: l₂ ∧ p.id = id ∧
      (handleDelete true id s).patients = l₁ ++ l₂ ∧
      (∀ q ∈ (handleDelete true id s).patients, q.id ≠ id) ∧
      (handleDelete true id s).patients.length + 1 = s.patients.length := by
  obtain ⟨l₁, p, l₂, hps, hp, hall, hf⟩ := filter_id_ne_split id s.patients hone
  have hres : (handleDelete true id s).patients = l₁ ++ l₂ := by
    rw [handleDelete_patients, hf]
  refine ⟨l₁, p, l₂, hps, hp, hres, ?_, ?_⟩
  · rw [hres]; exact hall
  · rw [hres, hps]; simp; omega

theorem handleDelete_removes_one_witness :
    ∃ l₁ p l₂, stateTwoDistinct.patients = l₁ ++ p :: l₂ ∧ p.id = 7 ∧
      (handleDelete true 7 stateTwoDistinct).patients = l₁ ++ l₂ ∧
      (∀ q ∈ (handleDelete true 7 stateTwoDistinct).patients, q.id ≠ 7) ∧
      (handleDelete true 7 stateTwoDistinct).patients.length + 1
        = stateTwoDistinct.patients.length :=
  handleDelete_removes_one 7 stateTwoDistinct (by decide)

/-- C5: from a collection in which every record has non-empty nombre, apellido
and dni, every sequence of `handleSubmit` calls (any `editingId`, any form
data, any clock) and `handleDelete` calls ends in such a collection; and a
`handleSubmit` whose form has an empty nombre, apellido or dni changes nothing. -/
theorem store_never_admits_incomplete (as : List StoreAction) (s : State)
    (hinv : ∀ p ∈ s.patients, requiredPresent p) :
    (∀ p ∈ (runActions as s).patients, requiredPresent p) ∧
    (∀ (now : Int) (today : String) (st : State),
      st.formData.nombre = "" ∨ st.formData.apellido = "" ∨ st.formData.dni = "" →
      handleSubmit now today st = st) := by
  refine ⟨runActions_requiredPresent as s hinv, ?_⟩
  intro now today st h
  apply handleSubmit_incomplete
  have hn : ¬ (formComplete st.formData = true) := by
    rw [formComplete_iff]
    rintro ⟨h1, h2, h3⟩
    rcases h with h | h | h
    · exact h1 h
    · exact h2 h
    · exact h3 h
  simpa using hn

theorem store_never_admits_incomplete_witness :
    (runActions sampleActions initialState).patients
      = [mkPatient { otherForm with nombre := "Ana Maria" } 7 "1/1/1970"] ∧
    ((∀ p ∈ (runActions sampleActions initialState).patients, requiredPresent p) ∧
    (∀ (now : Int) (today : String) (st : State),
      st.formData.nombre = "" ∨ st.formData.apellido = "" ∨ st.formData.dni = "" →
      handleSubmit now today st = st)) :=
  ⟨by decide, store_never_admits_incomplete sampleActions initialState (by decide)⟩

/-- C7: for every collection, every record `r` in it and every query whose
lower-cased form is contained in the lower-cased `r.apellido`, the filter with
scope `apellido` returns `r`, whatever lower-casing function is in use. -/
theorem filteredPatients_apellido_complete (L : LowerCase) (s : State) (r : Patient)
    (hr : r ∈ s.patients) (hscope : s.searchType = SearchType.apellido)
    (hsub : (L.toLowerCase s.searchTerm).data <:+: (L.toLowerCase r.apellido).data) :
    r ∈ filteredPatients L s := by
  rw [filteredPatients, List.mem_filter]
  refine ⟨hr, ?_⟩
  rw [hscope]
  unfold matchesSearch
  by_cases he : truthyStr (L.toLowerCase s.searchTerm) = true
  · simp [he, includes, hsub]
  · simp [he]

theorem filteredPatients_apellido_complete_witness :
    stateSearchSmith.searchTerm = "SMITH" ∧
    (mkPatient otherForm 8 "2/1/1970").apellido = "Smith" ∧
    mkPatient otherForm 8 "2/1/1970" ∈ filteredPatients asciiLower stateSearchSmith :=
  ⟨rfl, rfl, filteredPatients_apellido_complete asciiLower stateSearchSmith
    (mkPatient otherForm 8 "2/1/1970") (by decide) rfl (by decide)⟩

/-- C8: for every collection and every scope, the filter with the empty query
returns the collection itself, same records in the same order. -/
theorem filteredPatients_empty_query (L : LowerCase) (s : State) (scope : SearchType) :
    filteredPatients L { s with searchTerm := "", searchType := scope } = s.patients := by
  rw [filteredPatients, List.filter_eq_self]
  intro p _
  exact matchesSearch_empty L scope p

/-- C9 (evaluation at the failing input): the form is open for editing id 0,
an id a record of the collection holds; the test `if (editingId)` is false for
0, the submit appends a record, and the collection grows from one record to
two instead of keeping its length. -/
theorem handleSubmit_edit_id_zero_appends :
    stateEditingId0.editingId = some 0 ∧
    stateEditingId0.patients.length = 1 ∧
    (handleSubmit 9 "2/1/1970" stateEditingId0).patients.length = 2 ∧
    (handleSubmit 9 "2/1/1970" stateEditingId0).patients
      = stateEditingId0.patients ++ [mkPatient sampleForm 9 "2/1/1970"] := by
  decide

/-- Insertion order on the two branches where they are taken: `handleSubmit`
with `editingId` null and a complete form yields the old collection followed by
the new record; `handleSubmit` with a non-zero `editingId` yields a collection
of the same length in which every record whose id differs from it is unchanged
at its position, so that nothing changes when no record holds that id. -/
theorem handleSubmit_keeps_insertion_order (now : Int) (today : String) (s : State) :
    (s.editingId = none → formComplete s.formData = true →
      (handleSubmit now today s).patients = s.patients ++ [mkPatient s.formData now today]) ∧
    (∀ eid : Int, s.editingId = some eid → eid ≠ 0 →
      (handleSubmit now today s).patients.length = s.patients.length ∧
      (∀ (i : Nat) (p : Patient), s.patients[i]? = some p → p.id ≠ eid →
        (handleSubmit now today s).patients[i]? = some p) ∧
      ((∀ p ∈ s.patients, p.id ≠ eid) → (handleSubmit now today s).patients = s.patients)) := by
  constructor
  · intro hmode hfd
    exact handleSubmit_create_patients now today s hfd (by rw [hmode]; rfl)
  · intro eid hmode hne
    by_cases hfd : formComplete s.formData = true
    · rw [handleSubmit_edit_patients now today s eid hfd hmode hne]
      exact ⟨updatePatients_length _ _ _,
        fun i p hi hp => updatePatients_getElem? _ _ _ i p hi hp,
        fun h => updatePatients_absent _ _ _ h⟩
    · have hfd' : formComplete s.formData = false := by simpa using hfd
      rw [handleSubmit_incomplete now today s hfd']
      exact ⟨rfl, fun i p hi _ => hi, fun _ => rfl⟩

theorem handleSubmit_keeps_insertion_order_witness :
    (handleSubmit 6 "1/1/1970" stateWithId5).patients
      = stateWithId5.patients ++ [mkPatient sampleForm 6 "1/1/1970"] ∧
    (handleSubmit 9 "3/1/1970" stateTwoDistinct).patients.length = 2 ∧
    (handleSubmit 9 "3/1/1970" stateTwoDistinct).patients[1]?
      = some (mkPatient otherForm 8 "2/1/1970") :=
  ⟨(handleSubmit_keeps_insertion_order 6 "1/1/1970" stateWithId5).1 rfl (by decide),
   ((handleSubmit_keeps_insertion_order 9 "3/1/1970" stateTwoDistinct).2 7 rfl (by decide)).1,
   ((handleSubmit_keeps_insertion_order 9 "3/1/1970" stateTwoDistinct).2 7 rfl (by decide)).2.1
     1 (mkPatient otherForm 8 "2/1/1970") rfl (by decide)⟩

/-- C10: in every state reachable from the initial state by events each
followed by the selection-reconciliation effect, `selectedPatient` is null or
is a record of the collection whose id occurs in the filtered view. -/
theorem selection_in_filtered_view (L : LowerCase) (s : State) (hr : Reachable L s) :
    s.selectedPatient = none ∨
    ∃ sel, s.selectedPatient = some sel ∧ sel ∈ s.patients ∧
      ∃ q ∈ filteredPatients L s, q.id = sel.id := by
  cases hsel : s.selectedPatient with
  | none => exact Or.inl rfl
  | some sel => exact Or.inr ⟨sel, rfl, reachable_selection L s hr sel hsel⟩

theorem selection_in_filtered_view_witness :
    (runEvents asciiLower sampleSession initialState).selectedPatient
      = some (mkPatient
          { emptyForm with nombre := "Ana", apellido := "Diaz", dni := "1234", edad := "41" }
          7 "1/1/1970") ∧
    ((runEvents asciiLower sampleSession initialState).selectedPatient = none ∨
      ∃ sel, (runEvents asciiLower sampleSession initialState).selectedPatient = some sel ∧
        sel ∈ (runEvents asciiLower sampleSession initialState).patients ∧
        ∃ q ∈ filteredPatients asciiLower (runEvents asciiLower sampleSession initialState),
          q.id = sel.id) :=
  ⟨by decide,
   selection_in_filtered_view asciiLower (runEvents asciiLower sampleSession initialState)
     (reachable_runEvents asciiLower sampleSession initialState Reachable.init (by decide))⟩

set_option maxRecDepth 100000 in
/-- C6 (counterexample): the slot holds the text of the empty collection and
the store has no room for more; the collection now holds two records, the
write of the persist effect is rejected and caught, the slot keeps its text,
and the load effect on a fresh state yields the empty collection, not the two
records. -/
theorem persist_rejected_then_load :
    stateToPersist.isLoading = false ∧
    stateToPersist.patients.length = 2 ∧
    setItem fullStorage "patients-data" (JSONstringify stateToPersist.patients)
      = Except.error StorageError.quotaExceeded ∧
    persistEffect stateToPersist fullStorage = fullStorage ∧
    (loadEffect (persistEffect stateToPersist fullStorage) initialState).patients = [] :=
  ⟨rfl, rfl, setItem_of_not_accepts _ _ _ (by decide), by decide, by decide⟩

/-- C6 (amended): for every collection held once loading is over, if the store
accepts the write, the persist effect followed by the load effect on a fresh
state reproduces the collection: the slot holds `JSONstringify` of the
collection, parsing that text gives the collection back, and the loaded state
has the same records in the same order with the same field values. -/
theorem load_after_persist (storage : Storage) (s fresh : State)
    (hloaded : s.isLoading = false)
    (haccepted : accepts storage "patients-data" (JSONstringify s.patients) = true) :
    getItem (persistEffect s storage) "patients-data" = some (JSONstringify s.patients) ∧
    JSONparse (JSONstringify s.patients) = some s.patients ∧
    (loadEffect (persistEffect s storage) fresh).patients = s.patients ∧
    (loadEffect (persistEffect s storage) fresh).isLoading = false := by
  have hget : getItem (persistEffect s storage) "patients-data"
      = some (JSONstringify s.patients) := by
    rw [persistEffect_of_accepts s storage hloaded haccepted]
    exact getItem_itemsAfterWrite storage _ _
  refine ⟨hget, JSONparse_JSONstringify s.patients, ?_, rfl⟩
  simp only [loadEffect, hget, JSONstringify_truthy, if_true, JSONparse_JSONstringify]

set_option maxRecDepth 100000 in
theorem load_after_persist_witness :
    stateToPersist.isLoading = false ∧
    accepts roomyStorage "patients-data" (JSONstringify stateToPersist.patients) = true ∧
    stateToPersist.patients.length = 2 ∧
    (loadEffect (persistEffect stateToPersist roomyStorage) initialState).patients
      = stateToPersist.patients :=
  ⟨rfl, by decide, rfl,
   (load_after_persist roomyStorage stateToPersist initialState rfl (by decide)).2.2.1⟩

end PatientRegistry
